import Mathlib

/-!
Verification development for the Matchmaker Discord bot repository.

Each section shallowly embeds one part of the Python sources:
database tables become lists of row structures, SQL statements become
pure functions on those lists, and try/except control flow becomes
explicit matches on Except values.  The theorems at the end of the file
settle the frozen specification claims against these embeddings.
-/

/- ===== Shared list helpers ===== -/

/-- A find on a list returns the designated element when that element
satisfies the predicate and the predicate determines the element uniquely
among members of the list. -/
theorem find_eq_of_mem_of_unique {α : Type} (p : α → Bool) :
    ∀ (l : List α) (r : α), r ∈ l → p r = true →
      (∀ a ∈ l, ∀ b ∈ l, p a = true → p b = true → a = b) →
      l.find? p = some r
  | [], r, hr, _, _ => absurd hr (List.not_mem_nil r)
  | a :: l, r, hr, hp, huniq => by
    by_cases ha : p a = true
    · have : a = r := huniq a (List.mem_cons_self a l) r hr ha hp
      simp [List.find?, ha, this, hp]
    · have hra : r ∈ l := by
        rcases List.mem_cons.mp hr with h | h
        · exact absurd (h ▸ hp) ha
        · exact h
      have ih := find_eq_of_mem_of_unique p l r hra hp
        (fun x hx y hy hpx hpy =>
          huniq x (List.mem_cons_of_mem a hx) y (List.mem_cons_of_mem a hy) hpx hpy)
      simp [List.find?, ha, ih]

/-- Members of a list that maps to a duplicate-free key list are determined
by their keys. -/
theorem mem_eq_of_nodup_keys {α β : Type} (f : α → β) {l : List α}
    (h : (l.map f).Nodup) {a b : α} (ha : a ∈ l) (hb : b ∈ l) (hf : f a = f b) :
    a = b :=
  List.inj_on_of_nodup_map h ha hb hf

/- ===== bot/utils/timeouts.py ===== -/

/-- A row of the user_timeouts table as read by bot/utils/timeouts.py:
the SELECT extracts expires_at as epoch seconds, so the time column is
modelled as an integer. -/
structure TimeoutRow where
  user_id : Int
  guild_id : Int
  expires_at : Int
  deriving DecidableEq, Repr

namespace Timeouts

/-- Key-match predicate of the WHERE user_id=$1 AND guild_id=$2 clauses. -/
def key_match (uid gid : Int) (r : TimeoutRow) : Bool :=
  r.user_id == uid && r.guild_id == gid

/-- The PRIMARY KEY (user_id, guild_id) constraint of the table schema. -/
def NodupKeys (tbl : List TimeoutRow) : Prop :=
  (tbl.map (fun r => (r.user_id, r.guild_id))).Nodup

/-- clear_timeout: DELETE FROM user_timeouts WHERE user_id=$1 AND guild_id=$2. -/
def clear_timeout (tbl : List TimeoutRow) (uid gid : Int) : List TimeoutRow :=
  tbl.filter (fun r => !(key_match uid gid r))

/-- fetchrow of the SELECT in is_user_timed_out / get_timeout_expiry. -/
def fetch_row (tbl : List TimeoutRow) (uid gid : Int) : Option TimeoutRow :=
  tbl.find? (key_match uid gid)

/-- is_user_timed_out from bot/utils/timeouts.py: reads the row for the
key, returns False when absent, auto-clears (via clear_timeout) and
returns False when the stored expiry is at or before now, and returns
True otherwise.  Returns the flag together with the table it leaves
behind. -/
def is_user_timed_out (tbl : List TimeoutRow) (uid gid now : Int) :
    Bool × List TimeoutRow :=
  match fetch_row tbl uid gid with
  | none => (false, tbl)
  | some r =>
    if r.expires_at ≤ now then (false, clear_timeout tbl uid gid)
    else (true, tbl)

end Timeouts

/-- C1: is_user_timed_out returns True iff the user_timeouts table holds a
row for (user_id, guild_id) whose expiry is strictly later than now; when
the row exists but its expiry is at or before now it deletes exactly that
row via clear_timeout and returns False; when no row exists it returns
False and leaves the table unchanged. -/
theorem is_user_timed_out_correct
    (tbl : List TimeoutRow) (uid gid now : Int) (hnd : Timeouts.NodupKeys tbl) :
    ((Timeouts.is_user_timed_out tbl uid gid now).1 = true ↔
      ∃ r ∈ tbl, r.user_id = uid ∧ r.guild_id = gid ∧ now < r.expires_at)
    ∧ (∀ r ∈ tbl, r.user_id = uid → r.guild_id = gid → r.expires_at ≤ now →
        (Timeouts.is_user_timed_out tbl uid gid now).1 = false ∧
        (Timeouts.is_user_timed_out tbl uid gid now).2 =
          Timeouts.clear_timeout tbl uid gid ∧
        (∀ x, x ∈ Timeouts.clear_timeout tbl uid gid ↔ x ∈ tbl ∧ x ≠ r))
    ∧ ((∀ r ∈ tbl, ¬(r.user_id = uid ∧ r.guild_id = gid)) →
        (Timeouts.is_user_timed_out tbl uid gid now).1 = false ∧
        (Timeouts.is_user_timed_out tbl uid gid now).2 = tbl) := by
  have hkm : ∀ r : TimeoutRow,
      Timeouts.key_match uid gid r = true ↔ (r.user_id = uid ∧ r.guild_id = gid) := by
    intro r
    simp [Timeouts.key_match]
  have huniq : ∀ a ∈ tbl, ∀ b ∈ tbl,
      Timeouts.key_match uid gid a = true → Timeouts.key_match uid gid b = true →
      a = b := by
    intro a ha b hb hpa hpb
    have h1 := (hkm a).mp hpa
    have h2 := (hkm b).mp hpb
    refine mem_eq_of_nodup_keys (fun r : TimeoutRow => (r.user_id, r.guild_id)) hnd ha hb ?_
    show (a.user_id, a.guild_id) = (b.user_id, b.guild_id)
    rw [h1.1, h1.2, h2.1, h2.2]
  refine ⟨⟨?_, ?_⟩, ?_, ?_⟩
  · intro h
    unfold Timeouts.is_user_timed_out at h
    cases hf : Timeouts.fetch_row tbl uid gid with
    | none => rw [hf] at h; simp at h
    | some r =>
      rw [hf] at h
      by_cases hle : r.expires_at ≤ now
      · simp [hle] at h
      · have hmem := List.mem_of_find?_eq_some hf
        have hp := List.find?_some hf
        have hk := (hkm r).mp hp
        exact ⟨r, hmem, hk.1, hk.2, not_le.mp hle⟩
  · rintro ⟨r, hr, h1, h2, h3⟩
    have hf : Timeouts.fetch_row tbl uid gid = some r :=
      find_eq_of_mem_of_unique _ tbl r hr ((hkm r).mpr ⟨h1, h2⟩) huniq
    unfold Timeouts.is_user_timed_out
    rw [hf]
    simp [not_le.mpr h3]
  · intro r hr h1 h2 hle
    have hf : Timeouts.fetch_row tbl uid gid = some r :=
      find_eq_of_mem_of_unique _ tbl r hr ((hkm r).mpr ⟨h1, h2⟩) huniq
    refine ⟨?_, ?_, ?_⟩
    · unfold Timeouts.is_user_timed_out
      rw [hf]
      simp [hle]
    · unfold Timeouts.is_user_timed_out
      rw [hf]
      simp [hle]
    · intro x
      constructor
      · intro hx
        have hx' := List.mem_filter.mp hx
        refine ⟨hx'.1, ?_⟩
        intro hxr
        have : Timeouts.key_match uid gid x = true := (hkm x).mpr (hxr ▸ ⟨h1, h2⟩)
        simp [this] at hx'
      · rintro ⟨hx, hxr⟩
        refine List.mem_filter.mpr ⟨hx, ?_⟩
        by_cases hk : Timeouts.key_match uid gid x = true
        · exact absurd (huniq x hx r hr hk ((hkm r).mpr ⟨h1, h2⟩)) hxr
        · simp at hk
          simp [hk]
  · intro hno
    have hf : Timeouts.fetch_row tbl uid gid = none := by
      apply List.find?_eq_none.mpr
      intro x hx
      intro hp
      exact hno x hx ((hkm x).mp hp)
    constructor
    · unfold Timeouts.is_user_timed_out
      rw [hf]
    · unfold Timeouts.is_user_timed_out
      rw [hf]

/-- Witness for C1 at a concrete table: a single non-expired row yields True. -/
theorem is_user_timed_out_correct_witness :
    (Timeouts.is_user_timed_out [⟨1, 2, 100⟩] 1 2 50).1 = true :=
  ((is_user_timed_out_correct [⟨1, 2, 100⟩] 1 2 50
      (by unfold Timeouts.NodupKeys; decide)).1).mpr
    ⟨⟨1, 2, 100⟩, by simp, rfl, rfl, by decide⟩

/- ===== bot/database/moderation_db.py ===== -/

/-- Which time columns the user_timeouts table currently has, as detected by
the information_schema query in moderation_db._detect_time_cols. -/
structure Layout where
  has_until : Bool
  has_expires : Bool
  deriving DecidableEq, Repr

/-- A row of public.user_timeouts as moderation_db sees it; a time column
that is absent from the layout holds none in every row; the source column
named until is rendered here as the field until_ because until is a
reserved word of the proof language. -/
structure UTRow where
  guild_id : Int
  user_id : Int
  until_ : Option Int
  expires_at : Option Int
  reason : Option String
  created_by : Option Int
  deriving DecidableEq, Repr

namespace ModerationDb

/-- WHERE guild_id=$1 AND user_id=$2 / ON CONFLICT (guild_id, user_id). -/
def key_match (gid uid : Int) (r : UTRow) : Bool :=
  r.guild_id == gid && r.user_id == uid

/-- The unique index user_timeouts_guild_user_uidx on (guild_id, user_id). -/
def NodupKeys (tbl : List UTRow) : Prop :=
  (tbl.map (fun r => (r.guild_id, r.user_id))).Nodup

/-- Rows never carry a value in a time column the layout does not have. -/
def WellFormed (ly : Layout) (tbl : List UTRow) : Prop :=
  ∀ r ∈ tbl, (ly.has_until = false → r.until_ = none) ∧
    (ly.has_expires = false → r.expires_at = none)

/-- The DO UPDATE SET clause of add_timeout: each existing time column is
set to the excluded (new) value, reason and created_by are overwritten. -/
def update_row (ly : Layout) (t : Int) (cb : Option Int) (rs : Option String)
    (r : UTRow) : UTRow :=
  { r with
    until_ := if ly.has_until then some t else r.until_,
    expires_at := if ly.has_expires then some t else r.expires_at,
    reason := rs,
    created_by := cb }

/-- The VALUES tuple of add_timeout: the same timestamp is written into
every time column that exists. -/
def new_row (ly : Layout) (gid uid t : Int) (cb : Option Int)
    (rs : Option String) : UTRow :=
  ⟨gid, uid, if ly.has_until then some t else none,
    if ly.has_expires then some t else none, rs, cb⟩

/-- add_timeout from moderation_db.py: raises when neither time column
exists, otherwise performs INSERT ... ON CONFLICT (guild_id, user_id)
DO UPDATE writing the timestamp into whichever time columns exist. -/
def add_timeout (ly : Layout) (tbl : List UTRow) (gid uid t : Int)
    (cb : Option Int) (rs : Option String) : Except String (List UTRow) :=
  if !(ly.has_until || ly.has_expires) then
    Except.error ("USER_TIMEOUTS_TIME_COLUMN_MISSING")
  else if tbl.any (key_match gid uid) then
    Except.ok (tbl.map (fun r =>
      if key_match gid uid r then update_row ly t cb rs r else r))
  else
    Except.ok (tbl ++ [new_row ly gid uid t cb rs])

/-- get_timeout_until from moderation_db.py:
SELECT COALESCE(until, expires_at) ... WHERE guild_id=$1 AND user_id=$2. -/
def get_timeout_until (tbl : List UTRow) (gid uid : Int) : Option Int :=
  match tbl.find? (key_match gid uid) with
  | none => none
  | some r => r.until_.orElse (fun _ => r.expires_at)

end ModerationDb

/-- Rows of user_timeouts are determined by their (guild_id, user_id) key
under the unique index. -/
theorem ut_key_unique (gid uid : Int) {tbl : List UTRow}
    (hnd : ModerationDb.NodupKeys tbl) :
    ∀ a ∈ tbl, ∀ b ∈ tbl, ModerationDb.key_match gid uid a = true →
      ModerationDb.key_match gid uid b = true → a = b := by
  intro a ha b hb hpa hpb
  have h1 : a.guild_id = gid ∧ a.user_id = uid := by
    simpa [ModerationDb.key_match] using hpa
  have h2 : b.guild_id = gid ∧ b.user_id = uid := by
    simpa [ModerationDb.key_match] using hpb
  refine mem_eq_of_nodup_keys (fun r : UTRow => (r.guild_id, r.user_id)) hnd ha hb ?_
  show (a.guild_id, a.user_id) = (b.guild_id, b.user_id)
  rw [h1.1, h1.2, h2.1, h2.2]

/-- C2: writing a timeout with add_timeout and reading it back with
get_timeout_until returns exactly the written timestamp under each table
layout that has at least one time column, because add_timeout writes the
same value into every existing time column and get_timeout_until reads
COALESCE(until, expires_at); when neither time column exists add_timeout
raises instead. -/
theorem add_timeout_get_timeout_until_roundtrip
    (ly : Layout) (tbl : List UTRow) (gid uid t : Int)
    (cb : Option Int) (rs : Option String)
    (hcol : ly.has_until = true ∨ ly.has_expires = true)
    (hnd : ModerationDb.NodupKeys tbl) (hwf : ModerationDb.WellFormed ly tbl) :
    (∃ tbl2, ModerationDb.add_timeout ly tbl gid uid t cb rs = Except.ok tbl2 ∧
      ModerationDb.get_timeout_until tbl2 gid uid = some t)
    ∧ (∀ ly2 : Layout, ly2.has_until = false → ly2.has_expires = false →
        ModerationDb.add_timeout ly2 tbl gid uid t cb rs =
          Except.error ("USER_TIMEOUTS_TIME_COLUMN_MISSING")) := by
  constructor
  · have hcol' : (ly.has_until || ly.has_expires) = true := by
      rcases hcol with h | h <;> simp [h]
    by_cases hany : tbl.any (ModerationDb.key_match gid uid) = true
    · refine ⟨tbl.map (fun r => if ModerationDb.key_match gid uid r then
        ModerationDb.update_row ly t cb rs r else r), ?_, ?_⟩
      · simp [ModerationDb.add_timeout, hcol', hany]
      · obtain ⟨r0, hr0, hk0⟩ := List.any_eq_true.mp hany
        have hkey_f : ∀ r : UTRow, ModerationDb.key_match gid uid
            (if ModerationDb.key_match gid uid r then
              ModerationDb.update_row ly t cb rs r else r) =
            ModerationDb.key_match gid uid r := by
          intro r
          by_cases h : ModerationDb.key_match gid uid r = true
          · have hp : r.guild_id = gid ∧ r.user_id = uid := by
              simpa [ModerationDb.key_match] using h
            simp [ModerationDb.update_row, ModerationDb.key_match, hp.1, hp.2]
          · simp [h]
        have hmem : (if ModerationDb.key_match gid uid r0 then
            ModerationDb.update_row ly t cb rs r0 else r0) ∈
            tbl.map (fun r => if ModerationDb.key_match gid uid r then
              ModerationDb.update_row ly t cb rs r else r) :=
          List.mem_map_of_mem _ hr0
        have hfr0 : (if ModerationDb.key_match gid uid r0 then
            ModerationDb.update_row ly t cb rs r0 else r0) =
            ModerationDb.update_row ly t cb rs r0 := by simp [hk0]
        have hfind : (tbl.map (fun r => if ModerationDb.key_match gid uid r then
            ModerationDb.update_row ly t cb rs r else r)).find?
            (ModerationDb.key_match gid uid) =
            some (ModerationDb.update_row ly t cb rs r0) := by
          refine find_eq_of_mem_of_unique _ _ _ (hfr0 ▸ hmem) ?_ ?_
          · rw [← hfr0, hkey_f r0]
            exact hk0
          · intro a ha b hb hka hkb
            obtain ⟨x, hx, rfl⟩ := List.mem_map.mp ha
            obtain ⟨y, hy, rfl⟩ := List.mem_map.mp hb
            have hkx : ModerationDb.key_match gid uid x = true := by
              rw [← hkey_f x]; exact hka
            have hky : ModerationDb.key_match gid uid y = true := by
              rw [← hkey_f y]; exact hkb
            rw [ut_key_unique gid uid hnd x hx y hy hkx hky]
        unfold ModerationDb.get_timeout_until
        rw [hfind]
        by_cases htu : ly.has_until = true
        · simp [ModerationDb.update_row, htu, Option.orElse]
        · have hte : ly.has_expires = true := by
            rcases hcol with h | h
            · exact absurd h htu
            · exact h
          have htu' : ly.has_until = false := by
            revert htu; cases ly.has_until <;> simp
          have hnone : r0.until_ = none := (hwf r0 hr0).1 htu'
          simp [ModerationDb.update_row, htu', hte, hnone, Option.orElse]
    · have hany' : tbl.any (ModerationDb.key_match gid uid) = false := by
        revert hany; cases tbl.any (ModerationDb.key_match gid uid) <;> simp
      refine ⟨tbl ++ [ModerationDb.new_row ly gid uid t cb rs], ?_, ?_⟩
      · simp [ModerationDb.add_timeout, hcol', hany']
      · have hnomatch : ∀ x ∈ tbl, ¬ ModerationDb.key_match gid uid x = true := by
          intro x hx
          exact (List.any_eq_false.mp hany') x hx
        have hknr : ModerationDb.key_match gid uid
            (ModerationDb.new_row ly gid uid t cb rs) = true := by
          simp [ModerationDb.new_row, ModerationDb.key_match]
        have hfind : (tbl ++ [ModerationDb.new_row ly gid uid t cb rs]).find?
            (ModerationDb.key_match gid uid) =
            some (ModerationDb.new_row ly gid uid t cb rs) := by
          refine find_eq_of_mem_of_unique _ _ _ ?_ hknr ?_
          · exact List.mem_append.mpr (Or.inr (List.mem_singleton.mpr rfl))
          · intro a ha b hb hka hkb
            have hanr : a = ModerationDb.new_row ly gid uid t cb rs := by
              rcases List.mem_append.mp ha with h | h
              · exact absurd hka (hnomatch a h)
              · exact List.mem_singleton.mp h
            have hbnr : b = ModerationDb.new_row ly gid uid t cb rs := by
              rcases List.mem_append.mp hb with h | h
              · exact absurd hkb (hnomatch b h)
              · exact List.mem_singleton.mp h
            rw [hanr, hbnr]
        unfold ModerationDb.get_timeout_until
        rw [hfind]
        by_cases htu : ly.has_until = true
        · simp [ModerationDb.new_row, htu, Option.orElse]
        · have hte : ly.has_expires = true := by
            rcases hcol with h | h
            · exact absurd h htu
            · exact h
          have htu' : ly.has_until = false := by
            revert htu; cases ly.has_until <;> simp
          simp [ModerationDb.new_row, htu', hte, Option.orElse]
  · intro ly2 h1 h2
    simp [ModerationDb.add_timeout, h1, h2]

/-- Witness for C2: under the until-only layout, writing timestamp 99 for
(guild 1, user 2) into an empty table and reading it back yields 99. -/
theorem add_timeout_get_timeout_until_roundtrip_witness :
    ∃ tbl2, ModerationDb.add_timeout ⟨true, false⟩ [] 1 2 99 none none =
      Except.ok tbl2 ∧ ModerationDb.get_timeout_until tbl2 1 2 = some 99 :=
  (add_timeout_get_timeout_until_roundtrip ⟨true, false⟩ [] 1 2 99 none none
    (Or.inl rfl) (by unfold ModerationDb.NodupKeys; decide)
    (by intro r hr; exact absurd hr (List.not_mem_nil r))).1

/- ===== Timeout gates of bot/cogs/lfg_ads.py ===== -/

/-- The module-level names defined by bot/database/moderation_db.py. -/
def moderation_db_defs : List String :=
  ["log", "TABLE_FQN", "_detect_time_cols", "ensure_user_timeouts_schema",
   "add_timeout", "get_timeout_until", "is_user_timed_out"]

/-- Python attribute lookup on a module: resolving an undefined name
raises AttributeError, modelled as an error value. -/
def getattr {α : Type} (defs : List String) (name : String) (impl : α) :
    Except Unit α :=
  if name ∈ defs then Except.ok impl else Except.error ()

/-- Outcome of the timeout gates at the top of LfgAds.post and
ConnectButton.connect: blocked by the global gate, blocked by the
per-guild gate, or allowed to proceed. -/
inductive GateOutcome where
  | blockedGlobal
  | blockedGuild
  | proceed
  deriving DecidableEq, Repr

/-- The global timeout gate: the body of the first try block.  Any
exception inside it, including the AttributeError from resolving the
undefined names, is caught by the except clause which logs and lets the
flow proceed.  Returns true exactly when the handler replies with the
timed-out notice and returns early. -/
def global_timeout_gate (defs : List String) (globally_timed_out : Bool)
    (global_until : Option Int) : Bool :=
  match getattr defs ("is_user_globally_timed_out") globally_timed_out with
  | Except.error _ => false
  | Except.ok false => false
  | Except.ok true =>
    match getattr defs ("get_global_timeout_until") global_until with
    | Except.error _ => false
    | Except.ok _ => true

/-- The per-guild timeout gate: the body of the second try block, calling
is_user_timed_out and get_timeout_until through the same module. -/
def guild_timeout_gate (defs : List String) (guild_timed_out : Bool)
    (guild_until : Option Int) : Bool :=
  match getattr defs ("is_user_timed_out") guild_timed_out with
  | Except.error _ => false
  | Except.ok false => false
  | Except.ok true =>
    match getattr defs ("get_timeout_until") guild_until with
    | Except.error _ => false
    | Except.ok _ => true

/-- The gate sequence at the top of the /lfg_ad post handler. -/
def post_timeout_gates (defs : List String) (globally guild : Bool)
    (gu gu2 : Option Int) : GateOutcome :=
  if global_timeout_gate defs globally gu then GateOutcome.blockedGlobal
  else if guild_timeout_gate defs guild gu2 then GateOutcome.blockedGuild
  else GateOutcome.proceed

/-- The gate sequence at the top of the Connect button handler; the
per-guild check runs only when the interaction carries a guild. -/
def connect_timeout_gates (defs : List String) (globally : Bool)
    (has_guild guild : Bool) (gu gu2 : Option Int) : GateOutcome :=
  if global_timeout_gate defs globally gu then GateOutcome.blockedGlobal
  else if has_guild && guild_timeout_gate defs guild gu2 then
    GateOutcome.blockedGuild
  else GateOutcome.proceed

/-- C3: the global timeout gates in /lfg_ad post and in the Connect button
never block any user, because is_user_globally_timed_out and
get_global_timeout_until are not defined in moderation_db and the
resulting AttributeError is swallowed by the enclosing except clause;
only the per-guild check can ever block. -/
theorem global_timeout_gate_never_blocks :
    ("is_user_globally_timed_out" ∉ moderation_db_defs)
    ∧ ("get_global_timeout_until" ∉ moderation_db_defs)
    ∧ (∀ (globally guild : Bool) (gu gu2 : Option Int),
        post_timeout_gates moderation_db_defs globally guild gu gu2 ≠
          GateOutcome.blockedGlobal
        ∧ (post_timeout_gates moderation_db_defs globally guild gu gu2 =
            GateOutcome.blockedGuild ↔ guild = true))
    ∧ (∀ (globally has_guild guild : Bool) (gu gu2 : Option Int),
        connect_timeout_gates moderation_db_defs globally has_guild guild gu gu2 ≠
          GateOutcome.blockedGlobal
        ∧ (connect_timeout_gates moderation_db_defs globally has_guild guild gu gu2 =
            GateOutcome.blockedGuild ↔ (has_guild && guild) = true)) := by
  have h1 : ("is_user_globally_timed_out" : String) ∉ moderation_db_defs := by
    decide
  have hg : ∀ (b : Bool) (u : Option Int),
      global_timeout_gate moderation_db_defs b u = false := by
    intro b u
    simp [global_timeout_gate, getattr, h1]
  have h3 : ("is_user_timed_out" : String) ∈ moderation_db_defs := by decide
  have h4 : ("get_timeout_until" : String) ∈ moderation_db_defs := by decide
  have hgg : ∀ (b : Bool) (u : Option Int),
      guild_timeout_gate moderation_db_defs b u = b := by
    intro b u
    cases b <;> simp [guild_timeout_gate, getattr, h3, h4]
  refine ⟨h1, by decide, ?_, ?_⟩
  · intro globally guild gu gu2
    cases guild <;> simp [post_timeout_gates, hg, hgg]
  · intro globally has_guild guild gu gu2
    cases has_guild <;> cases guild <;>
      simp [connect_timeout_gates, hg, hgg]

/- ===== bot/db.py counters ===== -/

namespace Db

/-- stats_inc from bot/db.py: INSERT INTO bot_counters(metric, value)
VALUES ($1, $2) ON CONFLICT (metric) DO UPDATE
SET value = bot_counters.value + EXCLUDED.value. -/
def stats_inc (tbl : List (String × Int)) (metric : String) (k : Int) :
    List (String × Int) :=
  if tbl.any (fun e => e.1 == metric) then
    tbl.map (fun e => if e.1 == metric then (e.1, e.2 + k) else e)
  else tbl ++ [(metric, k)]

/-- The stored value of a metric in bot_counters, none when absent. -/
def counter_value (tbl : List (String × Int)) (metric : String) : Option Int :=
  (tbl.find? (fun e => e.1 == metric)).map (fun e => e.2)

end Db

/-- One stats_inc call sets the counter to its previous value plus the
increment, treating an absent metric as zero. -/
theorem stats_inc_value (m : String) (k : Int) :
    ∀ tbl : List (String × Int),
      Db.counter_value (Db.stats_inc tbl m k) m =
        some ((Db.counter_value tbl m).getD 0 + k)
  | [] => by simp [Db.stats_inc, Db.counter_value]
  | e :: tbl => by
    by_cases he : (e.1 == m) = true
    · have hany : (e :: tbl).any (fun x => x.1 == m) = true := by
        simp [List.any_cons, he]
      simp only [Db.stats_inc, hany, if_true, List.map_cons, he, if_pos]
      simp [Db.counter_value, List.find?, he]
    · have hstep : Db.stats_inc (e :: tbl) m k = e :: Db.stats_inc tbl m k := by
        have hne : e.1 ≠ m := by simpa using he
        simp only [Db.stats_inc, List.any_cons, he, Bool.false_or]
        cases htl : tbl.any (fun x => x.1 == m) <;> simp [he, hne]
      rw [hstep]
      have hcv : ∀ l : List (String × Int),
          Db.counter_value (e :: l) m = Db.counter_value l m := by
        intro l
        simp [Db.counter_value, List.find?, he]
      rw [hcv, hcv]
      exact stats_inc_value m k tbl

/-- Folding a sequence of increments adds their sum to the counter. -/
theorem stats_inc_foldl (m : String) :
    ∀ (ks : List Int) (tbl : List (String × Int)),
      (Db.counter_value (ks.foldl (fun t j => Db.stats_inc t m j) tbl) m).getD 0 =
        (Db.counter_value tbl m).getD 0 + ks.sum
  | [], tbl => by simp
  | k :: ks, tbl => by
    simp only [List.foldl_cons, List.sum_cons]
    rw [stats_inc_foldl m ks (Db.stats_inc tbl m k)]
    rw [stats_inc_value m k tbl]
    simp [Option.getD]
    ring

/-- C9: stats_inc sets the counter for a metric to its previous value plus
the increment, creating the row with exactly the increment when the metric
was absent; consequently, after any sequence of stats_inc calls starting
from an absent metric the counter equals the sum of all increments. -/
theorem stats_inc_correct (tbl : List (String × Int)) (m : String) (k : Int)
    (ks : List Int) (habs : Db.counter_value tbl m = none) :
    (Db.counter_value (Db.stats_inc tbl m k) m = some k)
    ∧ (∀ (tbl2 : List (String × Int)) (j : Int),
        Db.counter_value (Db.stats_inc tbl2 m j) m =
          some ((Db.counter_value tbl2 m).getD 0 + j))
    ∧ ((Db.counter_value (ks.foldl (fun t j => Db.stats_inc t m j) tbl) m).getD 0 =
        ks.sum) := by
  refine ⟨?_, fun tbl2 j => stats_inc_value m j tbl2, ?_⟩
  · rw [stats_inc_value m k tbl, habs]
    simp
  · rw [stats_inc_foldl m ks tbl, habs]
    simp

/-- Witness for C9: three increments of ads_posted from an empty counters
table sum to six. -/
theorem stats_inc_correct_witness :
    (Db.counter_value
      (([1, 2, 3] : List Int).foldl (fun t j => Db.stats_inc t ("ads_posted") j) [])
      ("ads_posted")).getD 0 = ([1, 2, 3] : List Int).sum :=
  (stats_inc_correct [] ("ads_posted") 1 [1, 2, 3] (by decide)).2.2

/- ===== bot/cogs/ad_interactions.py moderation actions ===== -/

/-- A recorded bot-level enforcement against a user in a guild. -/
structure Enforcement where
  guild_id : Int
  user_id : Int
  action : String
  until_ : Option Int
  reason : Option String
  deriving DecidableEq, Repr

namespace AdInteractions

/-- Modelled from the spec: put_enforcement is awaited by
BanModal.on_submit and TimeoutModal.on_submit in
bot/cogs/ad_interactions.py, but its definition is not among the
repository sources provided.  The spec describes the moderation workflow
as recording bot-level enforcements (timeouts, bans), so the call is
modelled as recording an enforcement row for (guild_id, user_id) with the
given action, expiry and reason. -/
def put_enforcement (tbl : List Enforcement) (gid uid : Int) (action : String)
    (until_ : Option Int) (reason : Option String) : List Enforcement :=
  tbl ++ [⟨gid, uid, action, until_, reason⟩]

/-- BanModal.on_submit: records a banned enforcement with no expiry for
the target user in the interaction guild, then replies to the moderator. -/
def banModal_on_submit (gid uid : Int) (reason : Option String)
    (tbl : List Enforcement) : List Enforcement × String :=
  (put_enforcement tbl gid uid ("banned") none reason,
   "User banned from the bot.")

/-- Result of pressing the Ban user button on ReportModView. -/
inductive BanButtonResult where
  | noReportedUser
  | noGuild
  | openModal (gid uid : Int)
  deriving DecidableEq, Repr

/-- ReportModView.ban_user: refuses when the report has no reported user
or the interaction has no guild, otherwise opens the ban modal for the
interaction guild and the reported user. -/
def reportModView_ban_user (reported_user_id : Option Int)
    (guild_id : Option Int) : BanButtonResult :=
  match reported_user_id with
  | none => BanButtonResult.noReportedUser
  | some uid =>
    match guild_id with
    | none => BanButtonResult.noGuild
    | some gid => BanButtonResult.openModal gid uid

end AdInteractions

/-- C4: pressing the Ban user button on a report with a reported user in a
guild opens the ban modal for that guild and user, and submitting the
modal records a banned bot-level enforcement with no expiry for the
reported user in that guild and replies that the user was banned from the
bot. -/
theorem ban_flow_records_ban (gid uid : Int) (reason : Option String)
    (tbl : List Enforcement) :
    AdInteractions.reportModView_ban_user (some uid) (some gid) =
      AdInteractions.BanButtonResult.openModal gid uid
    ∧ (⟨gid, uid, "banned", none, reason⟩ : Enforcement) ∈
        (AdInteractions.banModal_on_submit gid uid reason tbl).1
    ∧ (AdInteractions.banModal_on_submit gid uid reason tbl).2 =
        "User banned from the bot." := by
  refine ⟨rfl, ?_, rfl⟩
  simp [AdInteractions.banModal_on_submit, AdInteractions.put_enforcement]

/- ===== bot/cogs/lfg_ads.py ad posting and connecting ===== -/

/-- A row of the lfg_ads table as inserted by /lfg_ad post. -/
structure LfgAd where
  id : Int
  author_id : Int
  author_name : String
  game : String
  platform : Option String
  region : Option String
  notes : Option String
  status : String
  deriving DecidableEq, Repr

namespace LfgAds

/-- A Discord DM attempt: ok when delivered, error when the API raised. -/
def try_dm (delivered : Bool) : Except Unit Unit :=
  if delivered then Except.ok () else Except.error ()

/-- What the Connect button handler finally tells the clicking user. -/
inductive ConnectReply where
  | adGone
  | dmdBoth (withJump : Bool)
  | noReply
  deriving DecidableEq, Repr

/-- The tail of ConnectButton.connect after the timeout and expiry gates:
fetch the ad (reply that it no longer exists when absent), DM the ad
owner inside try/except with the failure only logged, DM the connector
inside try/except with the failure only logged, then send the ephemeral
confirmation that both parties were sent a DM whenever the interaction
was acknowledged. -/
def connect_after_gates (acked : Bool) (ad : Option LfgAd)
    (owner_dm_delivered conn_dm_delivered : Bool) (jump : Option String) :
    ConnectReply :=
  match ad with
  | none => if acked then ConnectReply.adGone else ConnectReply.noReply
  | some _ =>
    match try_dm owner_dm_delivered with
    | Except.ok _ =>
      match try_dm conn_dm_delivered with
      | Except.ok _ =>
        if acked then ConnectReply.dmdBoth jump.isSome else ConnectReply.noReply
      | Except.error _ =>
        if acked then ConnectReply.dmdBoth jump.isSome else ConnectReply.noReply
    | Except.error _ =>
      match try_dm conn_dm_delivered with
      | Except.ok _ =>
        if acked then ConnectReply.dmdBoth jump.isSome else ConnectReply.noReply
      | Except.error _ =>
        if acked then ConnectReply.dmdBoth jump.isSome else ConnectReply.noReply

end LfgAds

/-- C6: in the Connect button handler a failed DM to the ad owner or to
the interested user is swallowed, and for every combination of DM
failures the clicking user still receives the ephemeral confirmation
that both parties were sent a DM. -/
theorem connect_dm_failures_swallowed (a : LfgAd)
    (owner_dm conn_dm : Bool) (jump : Option String) :
    LfgAds.connect_after_gates true (some a) owner_dm conn_dm jump =
      LfgAds.ConnectReply.dmdBoth jump.isSome := by
  cases owner_dm <;> cases conn_dm <;> rfl

namespace LfgAds

/-- do_post_work from LfgAds.post: read the configured destinations from
guild_settings; when none exist, return without inserting; otherwise
insert the ad with status open and a fresh id, broadcast to every
destination, and return the number of sends that succeeded together with
the inserted id and the resulting lfg_ads table.  send_ok covers the
whole per-destination attempt: guild and channel resolution, the
permission check, and the bounded send itself. -/
def do_post_work (rows : List (Int × Int)) (ads : List LfgAd) (next_id : Int)
    (send_ok : Int → Int → Bool) (author_id : Int) (author_name game : String)
    (platform region notes : Option String) : Nat × Option Int × List LfgAd :=
  if rows.isEmpty then (0, none, ads)
  else
    let ads1 := ads ++
      [⟨next_id, author_id, author_name, game, platform, region, notes, "open"⟩]
    let posted := rows.countP (fun r => send_ok r.1 r.2)
    (posted, some next_id, ads1)

/-- How the asyncio.wait_for(POST_TIMEOUT_SECONDS) around do_post_work
ended: the work completed in time, or the TimeoutError cancelled it
before the INSERT ran, or after the INSERT ran.  On TimeoutError the
handler replies and returns without any cleanup. -/
inductive PostRunOutcome where
  | completed
  | timedOutBeforeInsert
  | timedOutAfterInsert
  deriving DecidableEq, Repr

/-- The outcome handling after a completed do_post_work in LfgAds.post:
when nothing was inserted the table is left alone; when a row was
inserted but zero sends succeeded, the handler issues the cleanup DELETE
inside a try/except that swallows failure, so the row disappears only
when the DELETE itself succeeds. -/
def post_finalize (delete_ok : Bool) : Nat × Option Int × List LfgAd → List LfgAd
  | (_, none, ads) => ads
  | (posted, some adId, ads) =>
    if posted = 0 then
      if delete_ok then ads.filter (fun a => !(a.id == adId)) else ads
    else ads

/-- The /lfg_ad post handler effect on the lfg_ads table, including the
asyncio.wait_for abort path: a timeout before the INSERT leaves the
table alone, a timeout after the INSERT leaves the inserted row behind
with no cleanup, and a completed run goes through post_finalize. -/
def post_command (outcome : PostRunOutcome) (delete_ok : Bool)
    (rows : List (Int × Int)) (ads : List LfgAd) (next_id : Int)
    (send_ok : Int → Int → Bool) (author_id : Int) (author_name game : String)
    (platform region notes : Option String) : List LfgAd :=
  match outcome with
  | PostRunOutcome.timedOutBeforeInsert => ads
  | PostRunOutcome.timedOutAfterInsert =>
    if rows.isEmpty then ads
    else ads ++
      [⟨next_id, author_id, author_name, game, platform, region, notes, "open"⟩]
  | PostRunOutcome.completed =>
    post_finalize delete_ok
      (do_post_work rows ads next_id send_ok author_id author_name game
        platform region notes)

end LfgAds

/-- C5 counterexample: with one destination whose send fails, a run that
the POST_TIMEOUT_SECONDS wait_for cancels after the INSERT leaves the
inserted row in lfg_ads although zero sends succeeded, and even a
completed zero-success run keeps the row when the swallowed cleanup
DELETE fails; both refute that a fully failed broadcast leaves the
lfg_ads table unchanged. -/
theorem post_timeout_leaves_row_counterexample :
    (LfgAds.post_command LfgAds.PostRunOutcome.timedOutAfterInsert true
        [(1, 2)] [] 5 (fun _ _ => false) 9 ("u") ("game") none none none =
      [⟨5, 9, "u", "game", none, none, none, "open"⟩])
    ∧ (LfgAds.post_command LfgAds.PostRunOutcome.completed false
        [(1, 2)] [] 5 (fun _ _ => false) 9 ("u") ("game") none none none =
      [⟨5, 9, "u", "game", none, none, none, "open"⟩])
    ∧ ([((1 : Int), (2 : Int))].countP
        (fun r => (fun (_ : Int) (_ : Int) => false) r.1 r.2) = 0) := by
  refine ⟨rfl, rfl, rfl⟩

/-- C5 amended: when do_post_work completes within POST_TIMEOUT_SECONDS
and the cleanup DELETE succeeds, an invocation of /lfg_ad post leaves a
row in lfg_ads iff at least one channel send succeeded, with no
destination configured nothing is inserted on any path, and a completed
fully failed broadcast deletes the inserted row; but a wait_for timeout
after the INSERT, or a failed cleanup DELETE, leaves the inserted row
despite zero successful sends. -/
theorem post_completed_insert_iff_send_success (rows : List (Int × Int))
    (ads : List LfgAd) (next_id : Int) (send_ok : Int → Int → Bool)
    (author_id : Int) (author_name game : String)
    (platform region notes : Option String)
    (hfresh : ∀ a ∈ ads, a.id ≠ next_id) :
    ((∃ a ∈ LfgAds.post_command LfgAds.PostRunOutcome.completed true rows ads
        next_id send_ok author_id author_name game platform region notes,
        a.id = next_id) ↔
      (rows ≠ [] ∧ 0 < rows.countP (fun r => send_ok r.1 r.2)))
    ∧ (rows = [] → ∀ (outcome : LfgAds.PostRunOutcome) (delete_ok : Bool),
        LfgAds.post_command outcome delete_ok rows ads next_id send_ok
          author_id author_name game platform region notes = ads)
    ∧ (rows ≠ [] → rows.countP (fun r => send_ok r.1 r.2) = 0 →
        LfgAds.post_command LfgAds.PostRunOutcome.completed true rows ads
          next_id send_ok author_id author_name game platform region notes = ads)
    ∧ (rows ≠ [] → ∀ delete_ok : Bool,
        LfgAds.post_command LfgAds.PostRunOutcome.timedOutAfterInsert delete_ok
          rows ads next_id send_ok author_id author_name game platform region
          notes = ads ++ [⟨next_id, author_id, author_name, game, platform,
            region, notes, "open"⟩])
    ∧ (rows ≠ [] → rows.countP (fun r => send_ok r.1 r.2) = 0 →
        LfgAds.post_command LfgAds.PostRunOutcome.completed false rows ads
          next_id send_ok author_id author_name game platform region notes =
          ads ++ [⟨next_id, author_id, author_name, game, platform, region,
            notes, "open"⟩]) := by
  by_cases hrows : rows = []
  · subst hrows
    refine ⟨?_, fun _ outcome delete_ok => ?_, fun h _ => absurd rfl h,
      fun h => absurd rfl h, fun h _ => absurd rfl h⟩
    · constructor
      · rintro ⟨a, ha, hid⟩
        simp [LfgAds.post_command, LfgAds.do_post_work, LfgAds.post_finalize] at ha
        exact absurd hid (hfresh a ha)
      · rintro ⟨h, _⟩
        exact absurd rfl h
    · cases outcome with
      | completed =>
        simp [LfgAds.post_command, LfgAds.do_post_work, LfgAds.post_finalize]
      | timedOutBeforeInsert => rfl
      | timedOutAfterInsert => simp [LfgAds.post_command]
  · have hne : rows.isEmpty = false := by
      cases rows with
      | nil => exact absurd rfl hrows
      | cons x l => rfl
    have habort : ∀ delete_ok : Bool,
        LfgAds.post_command LfgAds.PostRunOutcome.timedOutAfterInsert delete_ok
          rows ads next_id send_ok author_id author_name game platform region
          notes = ads ++ [⟨next_id, author_id, author_name, game, platform,
            region, notes, "open"⟩] := by
      intro delete_ok
      simp [LfgAds.post_command, hne]
    by_cases hzero : rows.countP (fun r => send_ok r.1 r.2) = 0
    · have hfinal : LfgAds.post_command LfgAds.PostRunOutcome.completed true
          rows ads next_id send_ok author_id author_name game platform region
          notes = ads := by
        simp only [LfgAds.post_command, LfgAds.do_post_work, hne,
          Bool.false_eq_true, if_false, LfgAds.post_finalize, hzero, if_pos,
          if_true]
        rw [List.filter_append]
        have h1 : ads.filter (fun a => !(a.id == next_id)) = ads := by
          apply List.filter_eq_self.mpr
          intro a ha
          simpa using hfresh a ha
        have h2 : ([(⟨next_id, author_id, author_name, game, platform, region,
            notes, "open"⟩ : LfgAd)].filter (fun a => !(a.id == next_id))) = [] := by
          simp
        rw [h1, h2, List.append_nil]
      have hnodel : LfgAds.post_command LfgAds.PostRunOutcome.completed false
          rows ads next_id send_ok author_id author_name game platform region
          notes = ads ++ [⟨next_id, author_id, author_name, game, platform,
            region, notes, "open"⟩] := by
        simp [LfgAds.post_command, LfgAds.do_post_work, hne,
          LfgAds.post_finalize, hzero]
      refine ⟨?_, fun h => absurd h hrows, fun _ _ => hfinal,
        fun _ => habort, fun _ _ => hnodel⟩
      rw [hfinal]
      constructor
      · rintro ⟨a, ha, hid⟩
        exact absurd hid (hfresh a ha)
      · rintro ⟨_, hpos⟩
        omega
    · have hfinal : LfgAds.post_command LfgAds.PostRunOutcome.completed true
          rows ads next_id send_ok author_id author_name game platform region
          notes = ads ++ [⟨next_id, author_id, author_name, game, platform,
            region, notes, "open"⟩] := by
        simp only [LfgAds.post_command, LfgAds.do_post_work, hne,
          Bool.false_eq_true, if_false, LfgAds.post_finalize, hzero, if_neg]
      refine ⟨?_, fun h => absurd h hrows, fun _ h => absurd h hzero,
        fun _ => habort, fun _ h => absurd h hzero⟩
      rw [hfinal]
      constructor
      · intro _
        exact ⟨hrows, Nat.pos_of_ne_zero hzero⟩
      · intro _
        exact ⟨⟨next_id, author_id, author_name, game, platform, region,
          notes, "open"⟩, by simp, rfl⟩

/-- Witness for C5 amended: a completed run with one destination whose
send succeeds leaves the freshly inserted ad in the table. -/
theorem post_completed_insert_iff_send_success_witness :
    ∃ a ∈ LfgAds.post_command LfgAds.PostRunOutcome.completed true [(1, 2)] []
      5 (fun _ _ => true) 9 ("u") ("game") none none none, a.id = 5 :=
  ((post_completed_insert_iff_send_success [(1, 2)] [] 5 (fun _ _ => true) 9
      ("u") ("game") none none none (by intro a ha; cases ha)).1).mpr
    ⟨by decide, by decide⟩

/- ===== bot/database/privacy_db.py and table independence ===== -/

/-- A row of lfg_ads as touched by the privacy deletion code, which
matches on an ad_id column and an owner-like column. -/
structure PrivAdRow where
  ad_id : Int
  author_id : Int
  deriving DecidableEq, Repr

/-- A row of lfg_ad_clicks. -/
structure ClickRow where
  ad_id : Int
  user_id : Int
  deriving DecidableEq, Repr

/-- A row of reports as touched by the privacy deletion code. -/
structure ReportRow where
  id : Int
  reporter_id : Int
  reported_id : Int
  status : String
  deriving DecidableEq, Repr

/-- A row of user_post_cooldowns. -/
structure CooldownRow where
  user_id : Int
  next_ok_at : Int
  deriving DecidableEq, Repr

/-- The database state across the tables the embedded operations touch. -/
structure DB where
  lfg_ads : List PrivAdRow
  lfg_ad_clicks : List ClickRow
  reports : List ReportRow
  user_timeouts : List TimeoutRow
  user_post_cooldowns : List CooldownRow
  bot_counters : List (String × Int)
  deriving DecidableEq, Repr

namespace PrivacyDb

/-- stats_inc as an operation on the whole database state. -/
def stats_inc_op (m : String) (k : Int) (db : DB) : DB :=
  { db with bot_counters := Db.stats_inc db.bot_counters m k }

/-- clear_timeout as an operation on the whole database state. -/
def clear_timeout_op (uid gid : Int) (db : DB) : DB :=
  { db with user_timeouts := Timeouts.clear_timeout db.user_timeouts uid gid }

/-- _safe_delete on lfg_ad_clicks with user_id = $1. -/
def delete_clicks_for_user (uid : Int) (db : DB) : DB :=
  { db with lfg_ad_clicks := db.lfg_ad_clicks.filter (fun c => !(c.user_id == uid)) }

/-- _safe_delete on reports with reporter_id = $1. -/
def delete_reports_as_reporter (uid : Int) (db : DB) : DB :=
  { db with reports := db.reports.filter (fun r => !(r.reporter_id == uid)) }

/-- _safe_delete on reports with reported_id = $1. -/
def delete_reports_as_reported (uid : Int) (db : DB) : DB :=
  { db with reports := db.reports.filter (fun r => !(r.reported_id == uid)) }

/-- _safe_delete on user_post_cooldowns with user_id = $1. -/
def delete_cooldowns_for_user (uid : Int) (db : DB) : DB :=
  { db with user_post_cooldowns :=
      db.user_post_cooldowns.filter (fun c => !(c.user_id == uid)) }

/-- The owner-column path of _delete_lfg_ads_for_user:
DELETE FROM public.lfg_ads WHERE author_id = $1. -/
def delete_lfg_ads_by_owner (uid : Int) (db : DB) : DB :=
  { db with lfg_ads := db.lfg_ads.filter (fun a => !(a.author_id == uid)) }

/-- The fallback path of _delete_lfg_ads_for_user:
DELETE FROM public.lfg_ads WHERE ad_id IN
(SELECT ad_id FROM public.lfg_ad_clicks WHERE user_id = $1). -/
def delete_lfg_ads_fallback (uid : Int) (db : DB) : DB :=
  { db with lfg_ads := db.lfg_ads.filter (fun a =>
      !(db.lfg_ad_clicks.any (fun c => c.user_id == uid && c.ad_id == a.ad_id))) }

/-- All tables other than lfg_ads. -/
def restAds (db : DB) :=
  (db.lfg_ad_clicks, db.reports, db.user_timeouts, db.user_post_cooldowns,
   db.bot_counters)

/-- All tables other than lfg_ad_clicks. -/
def restClicks (db : DB) :=
  (db.lfg_ads, db.reports, db.user_timeouts, db.user_post_cooldowns,
   db.bot_counters)

/-- All tables other than reports. -/
def restReports (db : DB) :=
  (db.lfg_ads, db.lfg_ad_clicks, db.user_timeouts, db.user_post_cooldowns,
   db.bot_counters)

/-- All tables other than user_timeouts. -/
def restTimeouts (db : DB) :=
  (db.lfg_ads, db.lfg_ad_clicks, db.reports, db.user_post_cooldowns,
   db.bot_counters)

/-- All tables other than user_post_cooldowns. -/
def restCooldowns (db : DB) :=
  (db.lfg_ads, db.lfg_ad_clicks, db.reports, db.user_timeouts,
   db.bot_counters)

/-- All tables other than bot_counters. -/
def restCounters (db : DB) :=
  (db.lfg_ads, db.lfg_ad_clicks, db.reports, db.user_timeouts,
   db.user_post_cooldowns)

/-- An operation is confined to lfg_ads when it leaves every other table
unchanged and its effect on lfg_ads is a function of lfg_ads alone. -/
def SingleTableOnAds (f : DB → DB) : Prop :=
  (∀ db, restAds (f db) = restAds db) ∧
  (∀ db db', db.lfg_ads = db'.lfg_ads → (f db).lfg_ads = (f db').lfg_ads)

/-- An operation is confined to lfg_ad_clicks. -/
def SingleTableOnClicks (f : DB → DB) : Prop :=
  (∀ db, restClicks (f db) = restClicks db) ∧
  (∀ db db', db.lfg_ad_clicks = db'.lfg_ad_clicks →
    (f db).lfg_ad_clicks = (f db').lfg_ad_clicks)

/-- An operation is confined to reports. -/
def SingleTableOnReports (f : DB → DB) : Prop :=
  (∀ db, restReports (f db) = restReports db) ∧
  (∀ db db', db.reports = db'.reports → (f db).reports = (f db').reports)

/-- An operation is confined to user_timeouts. -/
def SingleTableOnTimeouts (f : DB → DB) : Prop :=
  (∀ db, restTimeouts (f db) = restTimeouts db) ∧
  (∀ db db', db.user_timeouts = db'.user_timeouts →
    (f db).user_timeouts = (f db').user_timeouts)

/-- An operation is confined to user_post_cooldowns. -/
def SingleTableOnCooldowns (f : DB → DB) : Prop :=
  (∀ db, restCooldowns (f db) = restCooldowns db) ∧
  (∀ db db', db.user_post_cooldowns = db'.user_post_cooldowns →
    (f db).user_post_cooldowns = (f db').user_post_cooldowns)

/-- An operation is confined to bot_counters. -/
def SingleTableOnCounters (f : DB → DB) : Prop :=
  (∀ db, restCounters (f db) = restCounters db) ∧
  (∀ db db', db.bot_counters = db'.bot_counters →
    (f db).bot_counters = (f db').bot_counters)

end PrivacyDb

/-- C7 counterexample: the fallback branch of the privacy deletion is an
operation on lfg_ads whose effect depends on the rows of lfg_ad_clicks,
so it is not confined to its own table: two states with identical lfg_ads
but different lfg_ad_clicks are deleted differently. -/
theorem cross_table_fallback_counterexample :
    ¬ PrivacyDb.SingleTableOnAds (PrivacyDb.delete_lfg_ads_fallback 7) := by
  intro h
  have h2 := h.2 ⟨[⟨1, 2⟩], [⟨1, 7⟩], [], [], [], []⟩
    ⟨[⟨1, 2⟩], [], [], [], [], []⟩ rfl
  exact absurd h2 (by decide)

/-- The snapshot read by stats_snapshot in bot/db.py: the server count
from bot_guilds, four counters from bot_counters, and the start time
from bot_meta. -/
structure StatsSnapshot where
  servers : Nat
  ads_posted : Int
  connections_made : Int
  matches_made : Int
  errors : Int
  bot_start_time : String
  deriving DecidableEq, Repr

namespace Db

/-- The stored value of a key in bot_meta, none when absent. -/
def meta_value (meta : List (String × String)) (key : String) : Option String :=
  (meta.find? (fun e => e.1 == key)).map (fun e => e.2)

/-- stats_snapshot from bot/db.py: a single SELECT statement reading
bot_guilds, bot_counters and bot_meta, with COALESCE defaulting missing
counters to 0 and a missing start time to the empty string. -/
def stats_snapshot (guilds : List Int) (counters : List (String × Int))
    (meta : List (String × String)) : StatsSnapshot :=
  { servers := guilds.length,
    ads_posted := (counter_value counters ("ads_posted")).getD 0,
    connections_made := (counter_value counters ("connections_made")).getD 0,
    matches_made := (counter_value counters ("matches_made")).getD 0,
    errors := (counter_value counters ("errors")).getD 0,
    bot_start_time := (meta_value meta ("bot_start_time")).getD ("") }

end Db

/-- C7 amended: the embedded per-table application operations — stats_inc
on bot_counters, clear_timeout on user_timeouts, the privacy deletes on
lfg_ad_clicks, reports and user_post_cooldowns, and the owner-column
delete on lfg_ads — are each confined to their own table, leaving every
other table unchanged with an effect depending only on their own table;
but the code does author cross-table couplings: the privacy fallback
deletes lfg_ads rows selected through lfg_ad_clicks, stats_snapshot is a
single statement whose result also depends on bot_guilds and on
bot_meta, and the DDL declares ON DELETE CASCADE foreign keys from
report_conversations.report_id to reports(id) and from
lfg_ad_clicks.ad_id to lfg_ads(ad_id), enforced by the database engine. -/
theorem single_table_ops_amended (m : String) (k : Int) (uid gid : Int) :
    PrivacyDb.SingleTableOnCounters (PrivacyDb.stats_inc_op m k)
    ∧ PrivacyDb.SingleTableOnTimeouts (PrivacyDb.clear_timeout_op uid gid)
    ∧ PrivacyDb.SingleTableOnClicks (PrivacyDb.delete_clicks_for_user uid)
    ∧ PrivacyDb.SingleTableOnReports (PrivacyDb.delete_reports_as_reporter uid)
    ∧ PrivacyDb.SingleTableOnReports (PrivacyDb.delete_reports_as_reported uid)
    ∧ PrivacyDb.SingleTableOnCooldowns (PrivacyDb.delete_cooldowns_for_user uid)
    ∧ PrivacyDb.SingleTableOnAds (PrivacyDb.delete_lfg_ads_by_owner uid)
    ∧ (∃ (g g' : List Int) (c : List (String × Int)) (me : List (String × String)),
        Db.stats_snapshot g c me ≠ Db.stats_snapshot g' c me)
    ∧ (∃ (g : List Int) (c : List (String × Int)) (me me' : List (String × String)),
        Db.stats_snapshot g c me ≠ Db.stats_snapshot g c me') := by
  refine ⟨⟨fun db => rfl, fun db db' h => ?_⟩,
    ⟨fun db => rfl, fun db db' h => ?_⟩,
    ⟨fun db => rfl, fun db db' h => ?_⟩,
    ⟨fun db => rfl, fun db db' h => ?_⟩,
    ⟨fun db => rfl, fun db db' h => ?_⟩,
    ⟨fun db => rfl, fun db db' h => ?_⟩,
    ⟨fun db => rfl, fun db db' h => ?_⟩, ?_, ?_⟩
  · simp [PrivacyDb.stats_inc_op, h]
  · simp [PrivacyDb.clear_timeout_op, h]
  · simp [PrivacyDb.delete_clicks_for_user, h]
  · simp [PrivacyDb.delete_reports_as_reporter, h]
  · simp [PrivacyDb.delete_reports_as_reported, h]
  · simp [PrivacyDb.delete_cooldowns_for_user, h]
  · simp [PrivacyDb.delete_lfg_ads_by_owner, h]
  · exact ⟨[], [7], [], [], by decide⟩
  · exact ⟨[], [], [], [("bot_start_time", "x")], by decide⟩

/- ===== The bounded broadcast fan-out of LfgAds.post ===== -/

namespace Broadcast

/-- MAX_SEND_CONCURRENCY = int(os.getenv("LFG_POST_MAX_CONCURRENCY", "5")),
with the environment variable modelled as an optional parsed override. -/
def MAX_SEND_CONCURRENCY (env : Option Nat) : Nat :=
  env.getD 5

/-- PER_SEND_TIMEOUT = int(os.getenv("LFG_POST_PER_SEND_TIMEOUT", "8")),
with the environment variable modelled as an optional parsed override. -/
def PER_SEND_TIMEOUT (env : Option Nat) : Nat :=
  env.getD 8

/-- How one channel.send attempt under asyncio.wait_for ends: delivered,
rejected by Discord, failed with an HTTP error, or abandoned by the
per-send timeout. -/
inductive SendOutcome where
  | success
  | forbidden
  | httpError
  | timedOut
  deriving DecidableEq, Repr

/-- One send_one task: whether the pre-semaphore checks (guild resolved,
text channel, permissions) pass, and how the guarded send would end. -/
structure TaskSpec where
  precheck_ok : Bool
  outcome : SendOutcome
  deriving DecidableEq, Repr

/-- The boolean send_one returns: true only when the prechecks pass and
the guarded send succeeds; forbidden, HTTP errors and the wait_for
timeout all return false. -/
def TaskSpec.result (t : TaskSpec) : Bool :=
  t.precheck_ok &&
    (match t.outcome with
     | SendOutcome.success => true
     | _ => false)

/-- Scheduler state of the fan-out: tasks not yet started, tasks holding
the semaphore, and results already collected. -/
structure BState where
  pending : List TaskSpec
  running : List TaskSpec
  done : List Bool
  deriving DecidableEq, Repr

/-- Interleaving semantics of the fan-out.  A task failing its prechecks
completes without touching the semaphore; a task passing them may enter
the semaphore only while fewer than N tasks hold it; a task holding the
semaphore finishes, releasing it and recording whether its send
succeeded. -/
inductive BStep (N : Nat) : BState → BState → Prop where
  | precheckFail (l₁ l₂ run done) (t : TaskSpec) :
      t.precheck_ok = false →
      BStep N ⟨l₁ ++ t :: l₂, run, done⟩ ⟨l₁ ++ l₂, run, false :: done⟩
  | acquire (l₁ l₂ run done) (t : TaskSpec) :
      t.precheck_ok = true → run.length < N →
      BStep N ⟨l₁ ++ t :: l₂, run, done⟩ ⟨l₁ ++ l₂, t :: run, done⟩
  | finish (pend r₁ r₂ done) (t : TaskSpec) :
      BStep N ⟨pend, r₁ ++ t :: r₂, done⟩
        ⟨pend, r₁ ++ r₂,
         (match t.outcome with
          | SendOutcome.success => true
          | _ => false) :: done⟩

/-- Initial state: every configured destination spawns one task. -/
def init (specs : List TaskSpec) : BState := ⟨specs, [], []⟩

/-- States the fan-out can reach from its initial state. -/
def Reachable (N : Nat) (specs : List TaskSpec) (s : BState) : Prop :=
  Relation.ReflTransGen (BStep N) (init specs) s

/-- Invariant of the fan-out: the semaphore bound, the fact that only
precheck-passing tasks hold the semaphore, and conservation of the
eventual success count. -/
def BInv (N : Nat) (specs : List TaskSpec) (s : BState) : Prop :=
  s.running.length ≤ N ∧ (∀ t ∈ s.running, t.precheck_ok = true) ∧
  (s.pending.countP TaskSpec.result + s.running.countP TaskSpec.result +
    s.done.count true = specs.countP TaskSpec.result)

end Broadcast

/-- One step of the fan-out preserves the invariant. -/
theorem binv_step {N : Nat} {specs : List Broadcast.TaskSpec}
    {s s' : Broadcast.BState} (h : Broadcast.BInv N specs s)
    (hs : Broadcast.BStep N s s') : Broadcast.BInv N specs s' := by
  obtain ⟨hlen, hrun, hcount⟩ := h
  cases hs with
  | precheckFail l₁ l₂ run done t ht =>
    refine ⟨hlen, hrun, ?_⟩
    have hres : Broadcast.TaskSpec.result t = false := by
      simp [Broadcast.TaskSpec.result, ht]
    simp only [List.countP_append, List.countP_cons, hres] at hcount ⊢
    simpa using hcount
  | acquire l₁ l₂ run done t ht hN =>
    refine ⟨hN, ?_, ?_⟩
    · intro x hx
      rcases List.mem_cons.mp hx with h | h
      · exact h ▸ ht
      · exact hrun x h
    · simp only [List.countP_append, List.countP_cons] at hcount ⊢
      omega
  | finish pend r₁ r₂ done t =>
    have htmem : t ∈ r₁ ++ t :: r₂ :=
      List.mem_append.mpr (Or.inr (List.mem_cons_self t r₂))
    have hpre : t.precheck_ok = true := hrun t htmem
    have hres : Broadcast.TaskSpec.result t =
        (match t.outcome with
         | Broadcast.SendOutcome.success => true
         | _ => false) := by
      simp [Broadcast.TaskSpec.result, hpre]
    refine ⟨?_, ?_, ?_⟩
    · have := hlen
      simp only [List.length_append, List.length_cons] at this ⊢
      omega
    · intro x hx
      have hx' : x ∈ r₁ ++ t :: r₂ := by
        rcases List.mem_append.mp hx with h | h
        · exact List.mem_append.mpr (Or.inl h)
        · exact List.mem_append.mpr (Or.inr (List.mem_cons_of_mem t h))
      exact hrun x hx'
    · simp only [List.countP_append, List.countP_cons, List.count_cons,
        ← hres] at hcount ⊢
      cases hb : Broadcast.TaskSpec.result t
      all_goals simp [hb] at hcount ⊢
      all_goals omega

/-- The invariant holds in every reachable state of the fan-out. -/
theorem binv_reachable {N : Nat} {specs : List Broadcast.TaskSpec}
    {s : Broadcast.BState} (h : Broadcast.Reachable N specs s) :
    Broadcast.BInv N specs s := by
  induction h with
  | refl =>
    refine ⟨by simp [Broadcast.init], ?_, by simp [Broadcast.init]⟩
    intro t ht
    simp [Broadcast.init] at ht
  | tail _ hstep ih => exact binv_step ih hstep

/-- C8: with the default configuration the fan-out admits at most
MAX_SEND_CONCURRENCY = 5 sends inside the semaphore at any moment, each
send abandoned by the PER_SEND_TIMEOUT = 8 second wait_for counts as a
failure, and when all tasks have completed the reported posted count
equals the number of sends that completed successfully. -/
theorem broadcast_semaphore_bound (specs : List Broadcast.TaskSpec)
    (s : Broadcast.BState) (h : Broadcast.Reachable 5 specs s) :
    Broadcast.MAX_SEND_CONCURRENCY none = 5
    ∧ Broadcast.PER_SEND_TIMEOUT none = 8
    ∧ s.running.length ≤ 5
    ∧ (s.pending = [] → s.running = [] →
        s.done.count true = specs.countP Broadcast.TaskSpec.result)
    ∧ (∀ t : Broadcast.TaskSpec,
        t.outcome = Broadcast.SendOutcome.timedOut →
        Broadcast.TaskSpec.result t = false) := by
  obtain ⟨hlen, _, hcount⟩ := binv_reachable h
  refine ⟨rfl, rfl, hlen, ?_, ?_⟩
  · intro hp hr
    rw [hp, hr] at hcount
    simpa using hcount
  · intro t ht
    simp [Broadcast.TaskSpec.result, ht]

/-- Witness for C8 at the initial state of a one-destination fan-out. -/
theorem broadcast_semaphore_bound_witness :
    (Broadcast.init [⟨true, Broadcast.SendOutcome.success⟩]).running.length ≤ 5 :=
  (broadcast_semaphore_bound [⟨true, Broadcast.SendOutcome.success⟩]
    (Broadcast.init [⟨true, Broadcast.SendOutcome.success⟩])
    Relation.ReflTransGen.refl).2.2.1

/- ===== bot/utils/antispam.py ===== -/

/-- GuildWindowLimiter from bot/utils/antispam.py, restricted to one
(guild_id, channel_id) key: the window length, the event cap, and the
deque of recorded hit timestamps for that key, oldest first.  defaultdict
makes the deque start empty. -/
structure GuildWindowLimiter where
  window_sec : Int
  max_events : Nat
  q : List Int
  deriving DecidableEq, Repr

/-- allow: evict from the front every timestamp older than now minus the
window, refuse when max_events timestamps remain, otherwise record now
and accept. -/
def GuildWindowLimiter.allow (L : GuildWindowLimiter) (now : Int) :
    Bool × GuildWindowLimiter :=
  let cutoff := now - L.window_sec
  let q1 := L.q.dropWhile (fun x => decide (x < cutoff))
  if L.max_events ≤ q1.length then (false, { L with q := q1 })
  else (true, { L with q := q1 ++ [now] })

/-- remaining: max(max_events - len(q), 0), here by truncated subtraction. -/
def GuildWindowLimiter.remaining (L : GuildWindowLimiter) : Nat :=
  L.max_events - L.q.length

/-- Run a sequence of allow calls, returning the final limiter state and
the list of results in call order. -/
def runAllow : GuildWindowLimiter → List Int → GuildWindowLimiter × List Bool
  | L, [] => (L, [])
  | L, u :: us =>
    let r := L.allow u
    let rest := runAllow r.2 us
    (rest.1, r.1 :: rest.2)

/-- The timestamps recorded over a sequence of allow calls: exactly the
call times at which allow returned True, in order. -/
def recorded : GuildWindowLimiter → List Int → List Int
  | _, [] => []
  | L, u :: us =>
    let r := L.allow u
    if r.1 then u :: recorded r.2 us else recorded r.2 us

/-- On a sorted list, dropping the strictly-older prefix is the same as
filtering by the cutoff. -/
theorem sorted_dropWhile_eq_filter (c : Int) :
    ∀ l : List Int, l.Pairwise (· ≤ ·) →
      l.dropWhile (fun x => decide (x < c)) = l.filter (fun x => decide (c ≤ x))
  | [], _ => rfl
  | a :: l, h => by
    obtain ⟨hall, htail⟩ := List.pairwise_cons.mp h
    by_cases ha : a < c
    · simp only [List.dropWhile_cons, List.filter_cons, decide_eq_true ha,
        if_true]
      have hna : decide (c ≤ a) = false := decide_eq_false (not_le.mpr ha)
      simp only [hna, Bool.false_eq_true, if_false]
      exact sorted_dropWhile_eq_filter c l htail
    · have hca : c ≤ a := not_lt.mp ha
      have hrest : l.filter (fun x => decide (c ≤ x)) = l :=
        List.filter_eq_self.mpr
          (fun x hx => decide_eq_true (le_trans hca (hall x hx)))
      simp only [List.dropWhile_cons, List.filter_cons, decide_eq_true hca,
        if_true]
      have hna : decide (a < c) = false := decide_eq_false ha
      simp [hna, hrest]

/-- Invariant tying a limiter state to the history of recorded
timestamps R and the time t₀ of the latest call: the queue holds exactly
the recorded timestamps at or after t₀ minus the window. -/
def GoodState (W : Int) (M : Nat) (t₀ : Int) (R : List Int)
    (L : GuildWindowLimiter) : Prop :=
  L.window_sec = W ∧ L.max_events = M ∧ R.Pairwise (· ≤ ·) ∧
  (∀ x ∈ R, x ≤ t₀) ∧ L.q = R.filter (fun x => decide (t₀ - W ≤ x))

/-- One allow call from a good state: it refuses exactly when max_events
recorded timestamps at or after now minus the window exist, and the
resulting state is good for the new call time with the possibly extended
record. -/
theorem allow_step {W : Int} {M : Nat} {t₀ : Int} {R : List Int}
    {L : GuildWindowLimiter} (hg : GoodState W M t₀ R L) (hW : 0 ≤ W)
    {u : Int} (hu : t₀ ≤ u) :
    ((L.allow u).1 = false ↔ M ≤ R.countP (fun x => decide (u - W ≤ x)))
    ∧ GoodState W M u (if (L.allow u).1 then R ++ [u] else R) (L.allow u).2 := by
  obtain ⟨hw, hm, hsort, hbound, hq⟩ := hg
  have hq1 : L.q.dropWhile (fun x => decide (x < u - L.window_sec)) =
      R.filter (fun x => decide (u - W ≤ x)) := by
    rw [hw, hq, sorted_dropWhile_eq_filter (u - W) _ (hsort.filter _),
      List.filter_filter]
    apply List.filter_congr
    intro x _
    by_cases hxc : u - W ≤ x
    · have h2 : t₀ - W ≤ x := le_trans (by omega) hxc
      simp [hxc, h2]
    · simp [hxc]
  have hlen : (L.q.dropWhile (fun x => decide (x < u - L.window_sec))).length =
      R.countP (fun x => decide (u - W ≤ x)) := by
    rw [hq1, List.countP_eq_length_filter]
  by_cases hM : L.max_events ≤
      (L.q.dropWhile (fun x => decide (x < u - L.window_sec))).length
  · have hres : L.allow u = (false,
        { L with q := L.q.dropWhile (fun x => decide (x < u - L.window_sec)) }) := by
      simp [GuildWindowLimiter.allow, hM]
    constructor
    · rw [hres]
      have hMc : M ≤ R.countP (fun x => decide (u - W ≤ x)) := by
        rw [← hm, ← hlen]
        exact hM
      exact iff_of_true rfl hMc
    · rw [hres]
      simp only [Bool.false_eq_true, if_false]
      refine ⟨hw, hm, hsort, fun x hx => le_trans (hbound x hx) hu, hq1⟩
  · have hres : L.allow u = (true,
        { L with q := (L.q.dropWhile (fun x => decide (x < u - L.window_sec)))
            ++ [u] }) := by
      simp [GuildWindowLimiter.allow, hM]
    constructor
    · rw [hres]
      refine iff_of_false (by simp) ?_
      intro hc
      apply hM
      rw [hm, hlen]
      exact hc
    · rw [hres]
      simp only [if_true]
      refine ⟨hw, hm, ?_, ?_, ?_⟩
      · refine List.pairwise_append.mpr ⟨hsort, List.pairwise_singleton _ _, ?_⟩
        intro a ha b hb
        rw [List.mem_singleton.mp hb]
        exact le_trans (hbound a ha) hu
      · intro x hx
        rcases List.mem_append.mp hx with h | h
        · exact le_trans (hbound x h) hu
        · rw [List.mem_singleton.mp h]
      · show (L.q.dropWhile (fun x => decide (x < u - L.window_sec))) ++ [u] =
          (R ++ [u]).filter (fun x => decide (u - W ≤ x))
        rw [List.filter_append, hq1]
        congr 1
        have huw : decide (u - W ≤ u) = true := decide_eq_true (by omega)
        rw [List.filter_cons, huw]
        simp

/-- Running monotone calls from a good state ends in a good state whose
record is extended by exactly the recorded timestamps of the run. -/
theorem runAllow_goodstate {W : Int} {M : Nat} (hW : 0 ≤ W) :
    ∀ (ts : List Int) (t₀ : Int) (R : List Int) (L : GuildWindowLimiter),
      GoodState W M t₀ R L → ts.Pairwise (· ≤ ·) → (∀ u ∈ ts, t₀ ≤ u) →
      ∃ t₁, GoodState W M t₁ (R ++ recorded L ts) (runAllow L ts).1 ∧
        t₀ ≤ t₁ ∧ (∀ u ∈ ts, u ≤ t₁) ∧ (t₁ = t₀ ∨ t₁ ∈ ts)
  | [], t₀, R, L => fun hg _ _ =>
    ⟨t₀, by simpa [recorded, runAllow] using hg, le_refl _, by simp, Or.inl rfl⟩
  | u :: us, t₀, R, L => fun hg hp hlb => by
    obtain ⟨hfu, hpus⟩ := List.pairwise_cons.mp hp
    have hu : t₀ ≤ u := hlb u (List.mem_cons_self u us)
    obtain ⟨_, hg'⟩ := allow_step hg hW hu
    obtain ⟨t₁, hg₁, ht₁u, ht₁all, ht₁or⟩ :=
      runAllow_goodstate hW us u (if (L.allow u).1 then R ++ [u] else R)
        (L.allow u).2 hg' hpus hfu
    refine ⟨t₁, ?_, le_trans hu ht₁u, ?_, ?_⟩
    · have h1 : (runAllow L (u :: us)).1 = (runAllow (L.allow u).2 us).1 := by
        simp [runAllow]
      have h2 : R ++ recorded L (u :: us) =
          (if (L.allow u).1 then R ++ [u] else R) ++ recorded (L.allow u).2 us := by
        by_cases hb : (L.allow u).1 <;> simp [recorded, hb]
      rw [h1, h2]
      exact hg₁
    · intro v hv
      rcases List.mem_cons.mp hv with h | h
      · exact h ▸ ht₁u
      · exact ht₁all v h
    · rcases ht₁or with h | h
      · exact Or.inr (h ▸ List.mem_cons_self u us)
      · exact Or.inr (List.mem_cons_of_mem u h)

/-- At any position of a monotone fresh run, allow refuses exactly when
max_events recorded timestamps at or after now minus the window exist. -/
theorem runAllow_split_iff (W : Int) (M : Nat) (hW : 0 ≤ W)
    (ts p s : List Int) (u : Int) (hts : ts = p ++ u :: s)
    (hp : ts.Pairwise (· ≤ ·)) :
    ((GuildWindowLimiter.allow (runAllow ⟨W, M, []⟩ p).1 u).1 = false ↔
      M ≤ (recorded ⟨W, M, []⟩ p).countP (fun x => decide (u - W ≤ x))) := by
  subst hts
  obtain ⟨hpp, hpus, hcross⟩ := List.pairwise_append.mp hp
  cases p with
  | nil =>
    have hg : GoodState W M u [] ⟨W, M, []⟩ :=
      ⟨rfl, rfl, List.Pairwise.nil, by simp, by simp⟩
    have h := (allow_step hg hW (le_refl u)).1
    simpa [runAllow, recorded] using h
  | cons v p' =>
    have hg : GoodState W M v [] ⟨W, M, []⟩ :=
      ⟨rfl, rfl, List.Pairwise.nil, by simp, by simp⟩
    have hlb : ∀ x ∈ v :: p', v ≤ x := by
      intro x hx
      rcases List.mem_cons.mp hx with h | h
      · exact h ▸ le_refl v
      · exact (List.pairwise_cons.mp hpp).1 x h
    obtain ⟨t₁, hg₁, _, _, ht₁or⟩ :=
      runAllow_goodstate hW (v :: p') v [] _ hg hpp hlb
    have humem : u ∈ u :: s := List.mem_cons_self u s
    have ht₁u : t₁ ≤ u := by
      rcases ht₁or with h | h
      · exact h ▸ hcross v (List.mem_cons_self v p') u humem
      · exact hcross t₁ h u humem
    have h := (allow_step hg₁ hW ht₁u).1
    simpa using h

/-- A list with a positive count for a predicate splits at the last
element satisfying it. -/
theorem exists_last_split {α : Type} (p : α → Bool) :
    ∀ l : List α, 0 < l.countP p →
      ∃ l₁ x l₂, l = l₁ ++ x :: l₂ ∧ p x = true ∧ l₂.countP p = 0 ∧
        l₁.countP p + 1 = l.countP p
  | [], h => by simp at h
  | a :: l, h => by
    by_cases hl : 0 < l.countP p
    · obtain ⟨l₁, x, l₂, heq, hpx, h0, hsum⟩ := exists_last_split p l hl
      refine ⟨a :: l₁, x, l₂, by simp [heq], hpx, h0, ?_⟩
      rw [List.countP_cons, List.countP_cons]
      omega
    · have hl0 : l.countP p = 0 := by omega
      cases hpa : p a with
      | false =>
        exfalso
        rw [List.countP_cons, hpa] at h
        rw [hl0] at h
        simp at h
      | true =>
        refine ⟨[], a, l, rfl, hpa, hl0, ?_⟩
        rw [List.countP_cons]
        simp [hpa, hl0]

/-- Every split of the recorded list comes from a split of the call
sequence at a call that returned True with the earlier recorded
timestamps as its history. -/
theorem recorded_split :
    ∀ (ts : List Int) (L : GuildWindowLimiter) (D₁ D₂ : List Int) (x : Int),
      recorded L ts = D₁ ++ x :: D₂ →
      ∃ p s, ts = p ++ x :: s ∧ recorded L p = D₁ ∧
        (GuildWindowLimiter.allow (runAllow L p).1 x).1 = true
  | [], L, D₁, D₂, x, h => by
    cases D₁ <;> simp [recorded] at h
  | u :: us, L, D₁, D₂, x, h => by
    by_cases hb : (L.allow u).1 = true
    · rw [show recorded L (u :: us) = u :: recorded (L.allow u).2 us from by
        simp [recorded, hb]] at h
      cases D₁ with
      | nil =>
        simp only [List.nil_append, List.cons.injEq] at h
        obtain ⟨hux, hrec⟩ := h
        refine ⟨[], us, by simp [hux], rfl, ?_⟩
        subst hux
        simpa [runAllow] using hb
      | cons d D₁' =>
        simp only [List.cons_append, List.cons.injEq] at h
        obtain ⟨hud, hrec⟩ := h
        subst hud
        obtain ⟨p', s', hts, hrecp, hallow⟩ :=
          recorded_split us (L.allow u).2 D₁' D₂ x hrec
        refine ⟨u :: p', s', by simp [hts], ?_, ?_⟩
        · simp [recorded, hb, hrecp]
        · simpa [runAllow] using hallow
    · have hb' : (L.allow u).1 = false := by
        revert hb; cases (L.allow u).1 <;> simp
      rw [show recorded L (u :: us) = recorded (L.allow u).2 us from by
        simp [recorded, hb']] at h
      obtain ⟨p', s', hts, hrecp, hallow⟩ :=
        recorded_split us (L.allow u).2 D₁ D₂ x h
      refine ⟨u :: p', s', by simp [hts], ?_, ?_⟩
      · simp [recorded, hb', hrecp]
      · simpa [runAllow] using hallow

/-- The number of True results of a run equals the number of recorded
timestamps. -/
theorem runAllow_count_true :
    ∀ (ts : List Int) (L : GuildWindowLimiter),
      (runAllow L ts).2.count true = (recorded L ts).length
  | [], _ => rfl
  | u :: us, L => by
    by_cases hb : (L.allow u).1 = true <;>
      simp [runAllow, recorded, hb, List.count_cons,
        runAllow_count_true us (L.allow u).2]

/-- A refusing allow call records no new timestamp: its queue is a
sublist of the previous queue. -/
theorem allow_false_no_record (L : GuildWindowLimiter) (t : Int)
    (h : (L.allow t).1 = false) :
    List.Sublist (L.allow t).2.q L.q ∧ (L.allow t).2.q.length ≤ L.q.length := by
  by_cases hM : L.max_events ≤
      (L.q.dropWhile (fun x => decide (x < t - L.window_sec))).length
  · have hres : L.allow t = (false,
        { L with q := L.q.dropWhile (fun x => decide (x < t - L.window_sec)) }) := by
      simp [GuildWindowLimiter.allow, hM]
    rw [hres]
    exact ⟨List.dropWhile_sublist _, (List.dropWhile_sublist _).length_le⟩
  · have hres : (L.allow t).1 = true := by
      simp [GuildWindowLimiter.allow, hM]
    rw [hres] at h
    cases h

/-- Over a monotone fresh run, at most max_events calls are accepted
within any closed interval of the window length. -/
theorem recorded_window_bound {W : Int} {M : Nat} (hW : 0 ≤ W)
    (ts : List Int) (hp : ts.Pairwise (· ≤ ·)) (a : Int) :
    (recorded ⟨W, M, []⟩ ts).countP
      (fun x => decide (a ≤ x ∧ x ≤ a + W)) ≤ M := by
  by_contra hgt
  push_neg at hgt
  have hpos : 0 < (recorded ⟨W, M, []⟩ ts).countP
      (fun x => decide (a ≤ x ∧ x ≤ a + W)) := lt_of_le_of_lt (Nat.zero_le M) hgt
  obtain ⟨D₁, x, D₂, hD, hpx, h0, hsum⟩ := exists_last_split _ _ hpos
  obtain ⟨p, s, hts, hrecp, htrue⟩ := recorded_split ts ⟨W, M, []⟩ D₁ D₂ x hD
  have hiff := runAllow_split_iff W M hW ts p s x hts hp
  have hlt : (recorded ⟨W, M, []⟩ p).countP
      (fun y => decide (x - W ≤ y)) < M := by
    by_contra hge
    push_neg at hge
    have hfalse := hiff.mpr hge
    rw [htrue] at hfalse
    cases hfalse
  have hximp : ∀ y ∈ D₁, (decide (a ≤ y ∧ y ≤ a + W)) = true →
      (decide (x - W ≤ y)) = true := by
    intro y _ hy
    have hy' : a ≤ y ∧ y ≤ a + W := of_decide_eq_true hy
    have hx' : a ≤ x ∧ x ≤ a + W := of_decide_eq_true hpx
    exact decide_eq_true (by omega)
  have hmono2 : D₁.countP (fun y => decide (a ≤ y ∧ y ≤ a + W)) ≤
      D₁.countP (fun y => decide (x - W ≤ y)) := List.countP_mono_left hximp
  rw [hrecp] at hlt
  omega

/-- C10 counterexample: with window 10 and limit 1, starting fresh and
calling at times 0 and 10, the second call is refused although zero
recorded timestamps are strictly newer than now minus the window
(10 - 10 = 0), which is fewer than max_events; the eviction keeps a
timestamp exactly at the cutoff, so the strictly-newer reading of the
claim is false. -/
theorem limiter_strict_window_counterexample :
    (runAllow ⟨10, 1, []⟩ [0, 10]).2 = [true, false]
    ∧ (recorded ⟨10, 1, []⟩ [0]).countP (fun x => decide (10 - 10 < x)) = 0
    ∧ 0 < 1 := by decide

/-- C10 amended: for a fresh key and non-decreasing call times, allow
accepts at most max_events calls within any closed interval of the
window length; a call is refused exactly when max_events recorded
timestamps lie at or after now minus the window (not strictly after); a
refused call records no new timestamp; and the accepted calls are
exactly the recorded timestamps.  allow and remaining are total
functions, so they never raise. -/
theorem limiter_window_correct (W : Int) (M : Nat) (ts : List Int)
    (hW : 0 ≤ W) (hmono : ts.Pairwise (· ≤ ·)) :
    (∀ a : Int, (recorded ⟨W, M, []⟩ ts).countP
        (fun x => decide (a ≤ x ∧ x ≤ a + W)) ≤ M)
    ∧ (∀ (p s : List Int) (u : Int), ts = p ++ u :: s →
        ((GuildWindowLimiter.allow (runAllow ⟨W, M, []⟩ p).1 u).1 = false ↔
          M ≤ (recorded ⟨W, M, []⟩ p).countP (fun x => decide (u - W ≤ x))))
    ∧ (∀ (L : GuildWindowLimiter) (t : Int), (L.allow t).1 = false →
        List.Sublist (L.allow t).2.q L.q ∧ (L.allow t).2.q.length ≤ L.q.length)
    ∧ ((runAllow ⟨W, M, []⟩ ts).2.count true =
        (recorded ⟨W, M, []⟩ ts).length) :=
  ⟨fun a => recorded_window_bound hW ts hmono a,
   fun p s u h => runAllow_split_iff W M hW ts p s u h hmono,
   allow_false_no_record,
   runAllow_count_true ts ⟨W, M, []⟩⟩

/-- Witness for C10 amended at window 10, limit 1, calls at 0 and 10: at
most one acceptance in the window starting at 0. -/
theorem limiter_window_correct_witness :
    (recorded ⟨(10 : Int), 1, []⟩ [(0 : Int), 10]).countP
      (fun x => decide ((0 : Int) ≤ x ∧ x ≤ 0 + 10)) ≤ 1 :=
  (limiter_window_correct 10 1 [0, 10] (by decide) (by decide)).1 0
